import Mathlib

set_option maxHeartbeats 1000000

/-
Verification of the metadata-enrichment and ingestion code of the
replications-database repository: a shallow embedding of the relevant
functions of fetch_metadata_from_doi.py, fetch_metadata_from_title.py and
ingestion_engine.py, followed by theorems about them.

Python values reaching the modelled code paths are embedded as `PyVal`:
None, float NaN, strings, ints, and floats.  Floats are modelled only at
integral values (`PyVal.float n` stands for the Python float n.0, the shape
pandas produces for integer columns containing missing entries).

HTTP requests and JSON parsing are not modelled: each provider call is
abstracted as an `Option SourceRec` - `Option.none` for a request that
raised, timed out, returned a non-success status or an unusable body (in
the source all of these skip the merge for that provider), `Option.some p`
for a parsed response whose per-key values are those the source's
field-mapping code would put into the provider dict (a key absent from the
provider's dict is `Option.none` inside `p`).
-/

inductive PyVal where
  | none
  | nan
  | str (s : String)
  | int (n : Int)
  | float (n : Int)
deriving DecidableEq

/-- Python truthiness of the modelled values: None, "", 0 and 0.0 are falsy;
NaN is truthy. -/
def truthy : PyVal → Bool
  | PyVal.none => false
  | PyVal.nan => true
  | PyVal.str s => !(s = "")
  | PyVal.int n => !(n = 0)
  | PyVal.float n => !(n = 0)

/-- Python str() of the modelled values. -/
def pyStr : PyVal → String
  | PyVal.none => "None"
  | PyVal.nan => "nan"
  | PyVal.str s => s
  | PyVal.int n => toString n
  | PyVal.float n => toString n ++ ".0"

/-- Python str.strip(), kept on the character-list representation. -/
def pyStrip (s : String) : String :=
  String.mk (((s.data.dropWhile Char.isWhitespace).reverse.dropWhile Char.isWhitespace).reverse)

/-- The membership test `v in [None, "", "NaN"]` used by the fetchers'
enrich and is_complete helpers (Python `in` compares with ==; no modelled
value other than these three literals compares equal to any of them). -/
def inEmptyList (v : PyVal) : Bool :=
  v == PyVal.none || v == PyVal.str "" || v == PyVal.str "NaN"

/-- Keys of the metadata dicts built by the two fetchers.  The dict of
fetch_metadata_from_doi has the eight keys authors..url; the dict of
fetch_metadata_from_title additionally has doi. -/
inductive MetaKey where
  | doi | authors | title | journal | volume | issue | pages | year | url
deriving DecidableEq

/-- The running metadata dict of a fetcher (total over the key set). -/
def MetaRec : Type := MetaKey → PyVal

/-- One provider's parsed contribution: `Option.none` at a key models the
key being absent from that provider's dict. -/
def SourceRec : Type := MetaKey → Option PyVal

/-- The empty metadata dict `{k: None for k in [...]}`. -/
def emptyMeta : MetaRec := fun _ => PyVal.none

/-- Key order of the fetch_metadata_from_doi dict (no doi key). -/
def doiKeys : List MetaKey :=
  [MetaKey.authors, MetaKey.title, MetaKey.journal, MetaKey.volume,
   MetaKey.issue, MetaKey.pages, MetaKey.year, MetaKey.url]

/-- Key order of the fetch_metadata_from_title dict. -/
def titleKeys : List MetaKey := MetaKey.doi :: doiKeys

/-- enrich(current, new) of both fetchers: fill missing fields in current
with non-empty values from new.  (The source's `if not new: return current`
guard is behaviourally the all-absent case and is dropped; `new` here is
always an actual dict.) -/
def enrich (current : MetaRec) (new : SourceRec) : MetaRec := fun k =>
  match new k with
  | Option.none => current k
  | Option.some v => if inEmptyList (current k) && !inEmptyList v then v else current k

/-- is_complete(m) of both fetchers: every key of the dict holds a value
not in [None, "", "NaN"]. -/
def is_complete (fields : List MetaKey) (m : MetaRec) : Bool :=
  fields.all fun k => !inEmptyList (m k)

inductive Provider where
  | openAlex | dataCite | crossref | unpaywall | europePMC | semanticScholar
deriving DecidableEq

/-- The uniform provider chain of fetch_metadata_from_doi: each block tries
one provider; on a usable response it merges and returns at once if the
dict is complete.  Result: final dict, providers invoked in order, and
whether an early (completeness) return happened. -/
def waterfall (fields : List MetaKey) :
    MetaRec → List (Provider × Option SourceRec) → MetaRec × List Provider × Bool
  | meta, [] => (meta, [], false)
  | meta, (pr, Option.none) :: rest =>
    let r := waterfall fields meta rest
    (r.1, pr :: r.2.1, r.2.2)
  | meta, (pr, Option.some p) :: rest =>
    let m := enrich meta p
    if is_complete fields m then (m, [pr], true)
    else
      let r := waterfall fields m rest
      (r.1, pr :: r.2.1, r.2.2)

/-- Provider order of fetch_metadata_from_doi. -/
def doiOrder : List Provider :=
  [Provider.openAlex, Provider.dataCite, Provider.crossref,
   Provider.unpaywall, Provider.europePMC, Provider.semanticScholar]

/-- Provider order of fetch_metadata_from_title. -/
def titleOrder : List Provider :=
  [Provider.openAlex, Provider.crossref, Provider.europePMC,
   Provider.dataCite, Provider.semanticScholar]

/-- The `if not meta["url"]: meta["url"] = f"https://doi.org/{doi}"` default
fallback at the end of fetch_metadata_from_doi. -/
def finalizeDoi (doi : String) (m : MetaRec) : MetaRec :=
  if truthy (m MetaKey.url) then m
  else fun k => if k = MetaKey.url then PyVal.str ("https://doi.org/" ++ doi) else m k

/-- fetch_metadata_from_doi(doi): None unless doi is a non-blank string;
then the six-provider waterfall (OpenAlex, DataCite, Crossref, Unpaywall,
Europe PMC, Semantic Scholar); the url fallback only runs when no
completeness return happened. -/
def fetch_metadata_from_doi (doi : PyVal) (o1 o2 o3 o4 o5 o6 : Option SourceRec) :
    Option (MetaRec × List Provider) :=
  match doi with
  | PyVal.str s =>
    if pyStrip s = "" then Option.none
    else
      let d := pyStrip s
      let r := waterfall doiKeys emptyMeta
        [(Provider.openAlex, o1), (Provider.dataCite, o2), (Provider.crossref, o3),
         (Provider.unpaywall, o4), (Provider.europePMC, o5), (Provider.semanticScholar, o6)]
      if r.2.2 then Option.some (r.1, r.2.1)
      else Option.some (finalizeDoi d r.1, r.2.1)
  | _ => Option.none

/-- The `if meta.get("doi") and not meta.get("url")` default fallback at the
end of fetch_metadata_from_title. -/
def finalizeTitle (m : MetaRec) : MetaRec :=
  if truthy (m MetaKey.doi) && !truthy (m MetaKey.url) then
    fun k => if k = MetaKey.url then PyVal.str ("https://doi.org/" ++ pyStr (m MetaKey.doi)) else m k
  else m

/-- Semantic Scholar block of fetch_metadata_from_title: always invoked
(with either the DOI or the title-search endpoint), merges on success, has
no completeness early return, and is followed by the url fallback. -/
def ssStage (m : MetaRec) (o5 : Option SourceRec) : MetaRec × List Provider :=
  match o5 with
  | Option.none => (finalizeTitle m, [Provider.semanticScholar])
  | Option.some p => (finalizeTitle (enrich m p), [Provider.semanticScholar])

/-- DataCite block of fetch_metadata_from_title (reached only with a truthy
local doi): merge on success, early return when complete, else Semantic
Scholar. -/
def dataCiteStage (m : MetaRec) (o4 o5 : Option SourceRec) : MetaRec × List Provider :=
  match o4 with
  | Option.none =>
    let r := ssStage m o5
    (r.1, Provider.dataCite :: r.2)
  | Option.some p =>
    let m4 := enrich m p
    if is_complete titleKeys m4 then (m4, [Provider.dataCite])
    else
      let r := ssStage m4 o5
      (r.1, Provider.dataCite :: r.2)

/-- The `if doi:` gate in front of DataCite: with a truthy local doi go
through DataCite, otherwise straight to Semantic Scholar. -/
def postSearch (m : MetaRec) (d : PyVal) (o4 o5 : Option SourceRec) : MetaRec × List Provider :=
  if truthy d then dataCiteStage m o4 o5 else ssStage m o5

/-- Europe PMC block of fetch_metadata_from_title (reached only with a falsy
local doi): on success merge, reread the local doi from the dict
(`doi = meta.get("doi")`), early return when complete; on failure the local
doi is left as it was. -/
def europePMCStage (m : MetaRec) (d : PyVal) (o3 o4 o5 : Option SourceRec) :
    MetaRec × List Provider :=
  match o3 with
  | Option.none =>
    let r := postSearch m d o4 o5
    (r.1, Provider.europePMC :: r.2)
  | Option.some p =>
    let m3 := enrich m p
    let d3 := m3 MetaKey.doi
    if is_complete titleKeys m3 then (m3, [Provider.europePMC])
    else
      let r := postSearch m3 d3 o4 o5
      (r.1, Provider.europePMC :: r.2)

/-- Code after the OpenAlex block of fetch_metadata_from_title, with `d` the
local variable `doi = meta.get("doi")`.  A truthy doi skips Crossref and
Europe PMC (both guarded by `if not doi:`); inside a successful Crossref
block the local doi is reassigned to the normalized DOI of the found item,
which is exactly the value stored under the dict's "doi" key. -/
def afterOpenAlex (m : MetaRec) (d : PyVal) (o2 o3 o4 o5 : Option SourceRec) :
    MetaRec × List Provider :=
  if truthy d then postSearch m d o4 o5
  else
    match o2 with
    | Option.none =>
      let r := europePMCStage m d o3 o4 o5
      (r.1, Provider.crossref :: r.2)
    | Option.some p =>
      let m2 := enrich m p
      if is_complete titleKeys m2 then (m2, [Provider.crossref])
      else
        let d2 := match p MetaKey.doi with
          | Option.some v => v
          | Option.none => PyVal.none
        let r :=
          if truthy d2 then postSearch m2 d2 o4 o5
          else europePMCStage m2 d2 o3 o4 o5
        (r.1, Provider.crossref :: r.2)

/-- fetch_metadata_from_title(title): None unless title is a non-blank
string (the regex clean-up of the title only changes the outgoing query
strings, which are not modelled); then OpenAlex, followed by the doi-gated
Crossref / Europe PMC / DataCite blocks and Semantic Scholar. -/
def fetch_metadata_from_title (title : PyVal) (o1 o2 o3 o4 o5 : Option SourceRec) :
    Option (MetaRec × List Provider) :=
  match title with
  | PyVal.str s =>
    if pyStrip s = "" then Option.none
    else Option.some (
      match o1 with
      | Option.none =>
        let r := afterOpenAlex emptyMeta (emptyMeta MetaKey.doi) o2 o3 o4 o5
        (r.1, Provider.openAlex :: r.2)
      | Option.some p =>
        let m1 := enrich emptyMeta p
        if is_complete titleKeys m1 then (m1, [Provider.openAlex])
        else
          let r := afterOpenAlex m1 (m1 MetaKey.doi) o2 o3 o4 o5
          (r.1, Provider.openAlex :: r.2))
  | _ => Option.none

/-- pd.isna on the modelled values: None and float NaN are missing. -/
def pd_isna : PyVal → Bool
  | PyVal.none => true
  | PyVal.nan => true
  | _ => false

/-- is_empty(value) of ingestion_engine.py: pd.isna(value) or value == ""
or value == "NaN" or (isinstance(value, str) and not value.strip()). -/
def is_empty (v : PyVal) : Bool :=
  pd_isna v || v == PyVal.str "" || v == PyVal.str "NaN" ||
  (match v with
   | PyVal.str s => pyStrip s = ""
   | _ => false)

/-- A pandas row (Series): `Option.none` at a column label means the label
is not in the row's index. -/
def Row : Type := String → Option PyVal

/-- Series.get(label): the value, or None when the label is absent. -/
def rowGet (r : Row) (c : String) : PyVal :=
  (r c).getD PyVal.none

/-- In-place assignment row[c] = v. -/
def setCol (r : Row) (c : String) (v : PyVal) : Row :=
  fun c2 => if c2 = c then Option.some v else r c2

/-- The field_mapping dict of enrich_from_metadata. -/
def field_mapping (pfx : String) : List (MetaKey × String) :=
  [(MetaKey.authors, pfx ++ "_authors"), (MetaKey.title, pfx ++ "_title"),
   (MetaKey.journal, pfx ++ "_journal"), (MetaKey.volume, pfx ++ "_volume"),
   (MetaKey.issue, pfx ++ "_issue"), (MetaKey.pages, pfx ++ "_pages"),
   (MetaKey.year, pfx ++ "_year")]

/-- One iteration of enrich_from_metadata's loop: if the column is in the
row's index, its value is empty, and metadata.get(meta_key) is truthy,
write the metadata value into the row. -/
def enrichStep (md : MetaRec) (r : Row) (kv : MetaKey × String) : Row :=
  match r kv.2 with
  | Option.none => r
  | Option.some cur =>
    if is_empty cur && truthy (md kv.1) then setCol r kv.2 (md kv.1) else r

/-- enrich_from_metadata(row, prefix, metadata) of ingestion_engine.py.
`metadata` is the fetcher result: None, or a dict with the full key set. -/
def enrich_from_metadata (row : Row) (pfx : String) (metadata : Option MetaRec) : Row :=
  match metadata with
  | Option.none => row
  | Option.some md => (field_mapping pfx).foldl (enrichStep md) row

/-- pyReplaceFuel pat rep n l: Python str.replace scanning, with fuel n
(one unit per character position; n = l.length always suffices). -/
def pyReplaceFuel (pat rep : List Char) : Nat → List Char → List Char
  | _, [] => []
  | 0, l => l
  | n + 1, c :: rest =>
    if pat.isPrefixOf (c :: rest) then rep ++ pyReplaceFuel pat rep n ((c :: rest).drop pat.length)
    else c :: pyReplaceFuel pat rep n rest

/-- Python str.replace on character lists: replace every non-overlapping
occurrence of pat, scanning left to right.  (Only used with pat nonempty;
the empty-pattern guard keeps the function total.) -/
def pyReplaceL (l pat rep : List Char) : List Char :=
  if pat = [] then l else pyReplaceFuel pat rep l.length l

/-- Python s.replace(pat, rep). -/
def pyReplaceStr (s pat rep : String) : String :=
  String.mk (pyReplaceL s.data pat.data rep.data)

/-- Python s.startswith(p). -/
def pyStartsWith (s p : String) : Bool :=
  p.data.isPrefixOf s.data

/-- Whether pat occurs as a contiguous run somewhere in l (Python
`pat in s`, for nonempty pat). -/
def occursIn (pat : List Char) : List Char → Bool
  | [] => pat.isEmpty
  | c :: rest => pat.isPrefixOf (c :: rest) || occursIn pat rest

/-- The prefix-stripping elif chain of normalize_doi.  Note the source uses
str.replace, which removes every occurrence of the matched prefix, not only
the leading one. -/
def stripDoiPrefixes (d : String) : String :=
  if pyStartsWith d "http://doi.org/" then pyReplaceStr d "http://doi.org/" ""
  else if pyStartsWith d "https://doi.org/" then pyReplaceStr d "https://doi.org/" ""
  else if pyStartsWith d "http://dx.doi.org/" then pyReplaceStr d "http://dx.doi.org/" ""
  else if pyStartsWith d "https://dx.doi.org/" then pyReplaceStr d "https://dx.doi.org/" ""
  else d

/-- normalize_doi(doi), identical in fetch_metadata_from_title.py and
ingestion_engine.py: None unless doi is a non-blank string; strip, remove
a known resolver prefix (via replace), and return the result unless it
ended up empty. -/
def normalize_doi (doi : PyVal) : Option String :=
  match doi with
  | PyVal.str s =>
    if pyStrip s = "" then Option.none
    else
      let d := stripDoiPrefixes (pyStrip s)
      if d = "" then Option.none else Option.some d
  | _ => Option.none

/-- sanity_check_metadata(row, prefix, metadata) of ingestion_engine.py. -/
def sanity_check_metadata (row : Row) (pfx : String) (metadata : Option MetaRec) : Bool :=
  match metadata with
  | Option.none => false
  | Option.some md =>
    match row (pfx ++ "_year") with
    | Option.none => true
    | Option.some v =>
      if is_empty v then true
      else
        let existing := pyStrip (pyStr v)
        let fetched := pyStrip (pyStr (md MetaKey.year))
        if fetched = "" then true
        else pyReplaceStr existing ".0" "" == pyReplaceStr fetched ".0" ""

/-- Equality as evaluated by the pandas elementwise comparisons inside
check_duplicate: a missing value (None or NaN) on either side never
compares equal; ints and (integral) floats compare by numeric value;
otherwise comparison is structural. -/
def pandasEq : PyVal → PyVal → Bool
  | PyVal.none, _ => false
  | _, PyVal.none => false
  | PyVal.nan, _ => false
  | _, PyVal.nan => false
  | PyVal.str a, PyVal.str b => a == b
  | PyVal.int a, PyVal.int b => a == b
  | PyVal.float a, PyVal.float b => a == b
  | PyVal.int a, PyVal.float b => a == b
  | PyVal.float a, PyVal.int b => a == b
  | _, _ => false

/-- check_duplicate(row, master_df): exact pandas match on the three key
columns against some master row (the master rows are assumed to carry the
three columns; a missing master column would raise in the source). -/
def check_duplicate (row : Row) (master : List Row) : Bool :=
  if master.isEmpty then false
  else master.any fun m =>
    pandasEq (rowGet m "original_url") (rowGet row "original_url") &&
    pandasEq (rowGet m "replication_url") (rowGet row "replication_url") &&
    pandasEq (rowGet m "description") (rowGet row "description")

/-- The duplicate-check-and-append stage (STEP 4) of ingest_data: every
processed row is checked against the pre-existing master only; duplicates
are counted and dropped, the rest are appended in order. -/
def ingest_dedup_append (processed master : List Row) : List Row × Nat :=
  (master ++ processed.filter (fun r => !check_duplicate r master),
   processed.countP (fun r => check_duplicate r master))

/-- The dedup key triple (original_url, replication_url, description) of a
row, as values. -/
def tripleOf (r : Row) : PyVal × PyVal × PyVal :=
  (rowGet r "original_url", rowGet r "replication_url", rowGet r "description")

/-- Whether a value is a Python str. -/
def isStrVal : PyVal → Bool
  | PyVal.str _ => true
  | _ => false

/-- Whether the three key fields of a row hold string values. -/
def strTriple (r : Row) : Bool :=
  isStrVal (rowGet r "original_url") && isStrVal (rowGet r "replication_url") &&
  isStrVal (rowGet r "description")


/-- A list prefixes itself extended by anything. -/
theorem isPrefixOf_append_self (a r : List Char) : a.isPrefixOf (a ++ r) = true := by
  induction a with
  | nil => simp
  | cons x xs ih => simp [List.isPrefixOf, ih]

/-- A prefix is no longer than the list it prefixes. -/
theorem length_le_of_isPrefixOf :
    ∀ (a l : List Char), a.isPrefixOf l = true → a.length ≤ l.length := by
  intro a
  induction a with
  | nil => intro l _; exact Nat.zero_le _
  | cons x xs ih =>
    intro l h
    cases l with
    | nil => simp [List.isPrefixOf] at h
    | cons y ys =>
      simp only [List.isPrefixOf, Bool.and_eq_true] at h
      simpa [Nat.succ_le_succ_iff] using ih ys h.2

/-- Whether a prefixes b ++ r is decided inside b when a is no longer
than b. -/
theorem isPrefixOf_append_of_le :
    ∀ (a b r : List Char), a.length ≤ b.length →
      a.isPrefixOf (b ++ r) = a.isPrefixOf b := by
  intro a
  induction a with
  | nil => intro b r _; simp
  | cons x xs ih =>
    intro b r h
    cases b with
    | nil => simp at h
    | cons y ys =>
      show (x == y && xs.isPrefixOf (ys ++ r)) = (x == y && xs.isPrefixOf ys)
      rw [ih ys r (by simpa [Nat.succ_le_succ_iff] using h)]

/-- Any fuel at least the list length gives the same replacement result. -/
theorem pyReplaceFuel_congr (pat rep : List Char) (hp : pat ≠ []) :
    ∀ (n : Nat) (l : List Char) (m : Nat), l.length ≤ n → l.length ≤ m →
      pyReplaceFuel pat rep n l = pyReplaceFuel pat rep m l := by
  intro n
  induction n with
  | zero =>
    intro l m hn _
    have : l = [] := List.length_eq_zero.mp (Nat.le_zero.mp hn)
    subst this
    cases m <;> rfl
  | succ n ih =>
    intro l m hn hm
    cases l with
    | nil => cases m <;> rfl
    | cons c rest =>
      cases m with
      | zero => simp at hm
      | succ m2 =>
        simp only [pyReplaceFuel]
        by_cases h : pat.isPrefixOf (c :: rest) = true
        · simp only [h, if_true]
          have hlen : pat.length ≤ (c :: rest).length := length_le_of_isPrefixOf _ _ h
          have hpos : 1 ≤ pat.length := by
            cases pat with
            | nil => exact absurd rfl hp
            | cons _ _ => simp
          have hd : ((c :: rest).drop pat.length).length ≤ n := by
            simp only [List.length_drop]
            omega
          have hd2 : ((c :: rest).drop pat.length).length ≤ m2 := by
            simp only [List.length_drop]
            omega
          rw [ih _ m2 hd hd2]
        · simp only [h, if_false]
          rw [ih rest m2 (by simpa using Nat.le_of_succ_le_succ (by simpa using hn))
              (by simpa using Nat.le_of_succ_le_succ (by simpa using hm))]
          simp

/-- Python replace removes a leading occurrence of the pattern and goes on
scanning after it. -/
theorem pyReplaceL_head (pat rest rep : List Char) (hp : pat ≠ []) :
    pyReplaceL (pat ++ rest) pat rep = rep ++ pyReplaceL rest pat rep := by
  cases pat with
  | nil => exact absurd rfl hp
  | cons x xs =>
    simp only [pyReplaceL, if_neg hp]
    have hcons : (x :: xs) ++ rest = x :: (xs ++ rest) := rfl
    have hlen : ((x :: xs) ++ rest).length = (xs ++ rest).length + 1 := by simp
    rw [hlen, hcons]
    have hpre : (x :: xs).isPrefixOf (x :: (xs ++ rest)) = true := by
      rw [← hcons]
      exact isPrefixOf_append_self (x :: xs) rest
    simp only [pyReplaceFuel, hpre, if_true]
    have hdrop : ((x :: (xs ++ rest)).drop (x :: xs).length) = rest := by
      rw [← hcons]
      exact List.drop_left _ _
    rw [hdrop]
    congr 1
    exact pyReplaceFuel_congr (x :: xs) rep hp _ rest _ (by simp) (Nat.le_refl _)

/-- When the pattern occurs nowhere in the list, replace is the identity. -/
theorem pyReplaceFuel_no_occurrence (pat rep : List Char) :
    ∀ (n : Nat) (l : List Char), occursIn pat l = false →
      pyReplaceFuel pat rep n l = l := by
  intro n
  induction n with
  | zero => intro l _; cases l <;> rfl
  | succ n ih =>
    intro l h
    cases l with
    | nil => rfl
    | cons c rest =>
      simp only [occursIn, Bool.or_eq_false_iff] at h
      simp only [pyReplaceFuel, h.1, if_false]
      rw [ih rest h.2]
      simp

/-- Python replace is the identity when the pattern does not occur. -/
theorem pyReplaceL_no_occurrence (l pat rep : List Char) (hp : pat ≠ [])
    (h : occursIn pat l = false) : pyReplaceL l pat rep = l := by
  simp only [pyReplaceL, if_neg hp]
  exact pyReplaceFuel_no_occurrence pat rep _ l h

/-- Building a string from a nonempty character list gives a nonempty
string. -/
theorem mk_ne_empty (l : List Char) (h : l ≠ []) : String.mk l ≠ "" := by
  intro hc
  exact h (by simpa using congrArg String.data hc)

/-- normalize_doi never returns the empty string (final `doi if doi else
None` guard). -/
theorem normalize_doi_ne_empty (v : PyVal) (t : String)
    (h : normalize_doi v = Option.some t) : t ≠ "" := by
  cases v with
  | str s =>
    simp only [normalize_doi] at h
    by_cases hs : pyStrip s = ""
    · simp [hs] at h
    · simp only [hs, if_false] at h
      by_cases hd : stripDoiPrefixes (pyStrip s) = ""
      · simp [hd] at h
      · simp only [hd, if_false, Option.some.injEq] at h
        rw [← h]
        exact hd
  | none => simp [normalize_doi] at h
  | nan => simp [normalize_doi] at h
  | int n => simp [normalize_doi] at h
  | float n => simp [normalize_doi] at h

/-- Core computation of normalize_doi when the stripped input decomposes as
a known prefix followed by rest in which the prefix never reoccurs. -/
theorem normalize_doi_branch_core (s P : String) (rest : List Char)
    (h : (pyStrip s).data = P.data ++ rest)
    (hstrip : stripDoiPrefixes (pyStrip s) = pyReplaceStr (pyStrip s) P "")
    (hP : P.data ≠ [])
    (hocc : occursIn P.data rest = false)
    (hrest : rest ≠ []) :
    normalize_doi (PyVal.str s) = Option.some (String.mk rest) := by
  have hne : pyStrip s ≠ "" := by
    intro hc
    rw [hc] at h
    have : P.data ++ rest = [] := by simpa using h.symm
    exact hP (List.append_eq_nil.mp this).1
  have hrepl : pyReplaceStr (pyStrip s) P "" = String.mk rest := by
    simp only [pyReplaceStr]
    rw [h, pyReplaceL_head P.data rest [] hP,
        pyReplaceL_no_occurrence rest P.data [] hP hocc]
    rfl
  simp only [normalize_doi, if_neg hne, hstrip, hrepl,
    if_neg (mk_ne_empty rest hrest)]

/-- C5 counterexample: normalize_doi is not idempotent.  On the string
"https://doi.org/http://doi.org/x" one application yields
"http://doi.org/x" (the https prefix is removed, a nested http resolver
prefix survives), and a second application yields "x". -/
theorem C5_counterexample :
    normalize_doi (PyVal.str "https://doi.org/http://doi.org/x") =
      Option.some "http://doi.org/x" ∧
    normalize_doi (PyVal.str "http://doi.org/x") = Option.some "x" ∧
    Option.some "http://doi.org/x" ≠ (Option.some "x" : Option String) := by
  refine ⟨by decide, by decide, by decide⟩

/-- C5 (amended): the round trips hold; normalize_doi returns None on
blank or non-string input; and normalize_doi is idempotent on every string
whose output is whitespace-trimmed and does not itself start with one of
the four known resolver prefixes (a nested resolver prefix or whitespace
surviving the strip can make a second application differ, as the
counterexample shows). -/
theorem C5_normalize_doi_amended :
    (normalize_doi (PyVal.str "https://doi.org/10.1/x") = Option.some "10.1/x" ∧
     normalize_doi (PyVal.str "http://doi.org/10.1/x") = Option.some "10.1/x" ∧
     normalize_doi (PyVal.str "10.1/x") = Option.some "10.1/x") ∧
    (∀ s : String, pyStrip s = "" → normalize_doi (PyVal.str s) = Option.none) ∧
    (∀ v : PyVal, (∀ s : String, v ≠ PyVal.str s) → normalize_doi v = Option.none) ∧
    (∀ s t : String, normalize_doi (PyVal.str s) = Option.some t →
      pyStrip t = t →
      pyStartsWith t "http://doi.org/" = false →
      pyStartsWith t "https://doi.org/" = false →
      pyStartsWith t "http://dx.doi.org/" = false →
      pyStartsWith t "https://dx.doi.org/" = false →
      normalize_doi (PyVal.str t) = Option.some t) := by
  refine ⟨⟨by decide, by decide, by decide⟩, ?_, ?_, ?_⟩
  · intro s hs
    simp [normalize_doi, hs]
  · intro v hv
    cases v with
    | str s => exact absurd rfl (hv s)
    | none => rfl
    | nan => rfl
    | int n => rfl
    | float n => rfl
  · intro s t h ht h1 h2 h3 h4
    have htne : t ≠ "" := normalize_doi_ne_empty (PyVal.str s) t h
    have hstrip : stripDoiPrefixes t = t := by
      simp [stripDoiPrefixes, h1, h2, h3, h4]
    simp only [normalize_doi, ht, if_neg htne, hstrip]

/-- Witness for C5: the conditional idempotence applied at the round-trip
example. -/
theorem C5_normalize_doi_amended_witness :
    normalize_doi (PyVal.str "10.1/x") = Option.some "10.1/x" :=
  C5_normalize_doi_amended.2.2.2 "https://doi.org/10.1/x" "10.1/x"
    (by decide) (by decide) (by decide) (by decide) (by decide) (by decide)

/-- C6 counterexample: on an input that starts with a known resolver
prefix, normalize_doi does not merely remove the leading prefix.  The
source's str.replace removes every occurrence, so characters after the
prefix are not preserved when the prefix reoccurs inside the identifier. -/
theorem C6_counterexample :
    pyStartsWith "http://doi.org/10.1/http://doi.org/x" "http://doi.org/" = true ∧
    String.mk ("http://doi.org/10.1/http://doi.org/x".data.drop
      "http://doi.org/".data.length) = "10.1/http://doi.org/x" ∧
    normalize_doi (PyVal.str "http://doi.org/10.1/http://doi.org/x") =
      Option.some "10.1/x" ∧
    ("10.1/x" : String) ≠ "10.1/http://doi.org/x" := by
  refine ⟨by decide, by decide, by decide, by decide⟩

/-- C6 (amended): for an input whose stripped form starts with one of the
known resolver prefixes, normalize_doi removes every occurrence of the
matched prefix from the stripped input; when that prefix does not reoccur
in the remainder, the result is exactly the remainder after the leading
prefix, every character preserved. -/
theorem C6_normalize_doi_amended :
    (∀ (s : String) (rest : List Char),
      (pyStrip s).data = "http://doi.org/".data ++ rest →
      normalize_doi (PyVal.str s) =
        (if pyReplaceStr (pyStrip s) "http://doi.org/" "" = "" then Option.none
         else Option.some (pyReplaceStr (pyStrip s) "http://doi.org/" ""))) ∧
    (∀ (s : String) (rest : List Char),
      (pyStrip s).data = "http://doi.org/".data ++ rest →
      occursIn "http://doi.org/".data rest = false → rest ≠ [] →
      normalize_doi (PyVal.str s) = Option.some (String.mk rest)) ∧
    (∀ (s : String) (rest : List Char),
      (pyStrip s).data = "https://doi.org/".data ++ rest →
      occursIn "https://doi.org/".data rest = false → rest ≠ [] →
      normalize_doi (PyVal.str s) = Option.some (String.mk rest)) ∧
    (∀ (s : String) (rest : List Char),
      (pyStrip s).data = "http://dx.doi.org/".data ++ rest →
      occursIn "http://dx.doi.org/".data rest = false → rest ≠ [] →
      normalize_doi (PyVal.str s) = Option.some (String.mk rest)) ∧
    (∀ (s : String) (rest : List Char),
      (pyStrip s).data = "https://dx.doi.org/".data ++ rest →
      occursIn "https://dx.doi.org/".data rest = false → rest ≠ [] →
      normalize_doi (PyVal.str s) = Option.some (String.mk rest)) := by
  have hne : ∀ (s P : String) (rest : List Char), P.data ≠ [] →
      (pyStrip s).data = P.data ++ rest → pyStrip s ≠ "" := by
    intro s P rest hP h hc
    rw [hc] at h
    have : P.data ++ rest = [] := by simpa using h.symm
    exact hP (List.append_eq_nil.mp this).1
  have hsw : ∀ (s P : String) (rest : List Char),
      (pyStrip s).data = P.data ++ rest → pyStartsWith (pyStrip s) P = true := by
    intro s P rest h
    simp only [pyStartsWith, h]
    exact isPrefixOf_append_self P.data rest
  have hswf : ∀ (s P Q : String) (rest : List Char),
      (pyStrip s).data = Q.data ++ rest → P.data.length ≤ Q.data.length →
      P.data.isPrefixOf Q.data = false → pyStartsWith (pyStrip s) P = false := by
    intro s P Q rest h hlen hpq
    simp only [pyStartsWith, h]
    rw [isPrefixOf_append_of_le P.data Q.data rest hlen]
    exact hpq
  refine ⟨?_, ?_, ?_, ?_, ?_⟩
  · intro s rest h
    have h0 : pyStrip s ≠ "" := hne s "http://doi.org/" rest (by decide) h
    have h1 : pyStartsWith (pyStrip s) "http://doi.org/" = true :=
      hsw s "http://doi.org/" rest h
    simp only [normalize_doi, if_neg h0, stripDoiPrefixes, h1, if_true]
  · intro s rest h hocc hrest
    have h1 : pyStartsWith (pyStrip s) "http://doi.org/" = true :=
      hsw s "http://doi.org/" rest h
    exact normalize_doi_branch_core s "http://doi.org/" rest h
      (by simp only [stripDoiPrefixes, h1, if_true]) (by decide) hocc hrest
  · intro s rest h hocc hrest
    have h1 : pyStartsWith (pyStrip s) "http://doi.org/" = false :=
      hswf s "http://doi.org/" "https://doi.org/" rest h (by decide) (by decide)
    have h2 : pyStartsWith (pyStrip s) "https://doi.org/" = true :=
      hsw s "https://doi.org/" rest h
    exact normalize_doi_branch_core s "https://doi.org/" rest h
      (by simp only [stripDoiPrefixes, h1, h2, if_true, Bool.false_eq_true, if_false])
      (by decide) hocc hrest
  · intro s rest h hocc hrest
    have h1 : pyStartsWith (pyStrip s) "http://doi.org/" = false :=
      hswf s "http://doi.org/" "http://dx.doi.org/" rest h (by decide) (by decide)
    have h2 : pyStartsWith (pyStrip s) "https://doi.org/" = false :=
      hswf s "https://doi.org/" "http://dx.doi.org/" rest h (by decide) (by decide)
    have h3 : pyStartsWith (pyStrip s) "http://dx.doi.org/" = true :=
      hsw s "http://dx.doi.org/" rest h
    exact normalize_doi_branch_core s "http://dx.doi.org/" rest h
      (by simp only [stripDoiPrefixes, h1, h2, h3, if_true, Bool.false_eq_true, if_false])
      (by decide) hocc hrest
  · intro s rest h hocc hrest
    have h1 : pyStartsWith (pyStrip s) "http://doi.org/" = false :=
      hswf s "http://doi.org/" "https://dx.doi.org/" rest h (by decide) (by decide)
    have h2 : pyStartsWith (pyStrip s) "https://doi.org/" = false :=
      hswf s "https://doi.org/" "https://dx.doi.org/" rest h (by decide) (by decide)
    have h3 : pyStartsWith (pyStrip s) "http://dx.doi.org/" = false :=
      hswf s "http://dx.doi.org/" "https://dx.doi.org/" rest h (by decide) (by decide)
    have h4 : pyStartsWith (pyStrip s) "https://dx.doi.org/" = true :=
      hsw s "https://dx.doi.org/" rest h
    exact normalize_doi_branch_core s "https://dx.doi.org/" rest h
      (by simp only [stripDoiPrefixes, h1, h2, h3, h4, if_true, Bool.false_eq_true, if_false])
      (by decide) hocc hrest

/-- Witness for C6: leading-prefix removal on a clean input. -/
theorem C6_normalize_doi_amended_witness :
    normalize_doi (PyVal.str "https://dx.doi.org/10.1/x") =
      Option.some (String.mk "10.1/x".data) :=
  C6_normalize_doi_amended.2.2.2.2 "https://dx.doi.org/10.1/x" "10.1/x".data
    (by decide) (by decide) (by decide)

/-- Pointwise unfolding of enrich. -/
theorem enrich_apply (m : MetaRec) (p : SourceRec) (k : MetaKey) :
    enrich m p k =
      match p k with
      | Option.none => m k
      | Option.some v => if inEmptyList (m k) && !inEmptyList v then v else m k := rfl

/-- C9: merge is idempotent - merging the same provider dict twice yields
the same record as merging it once (enrich of both fetchers). -/
theorem C9_enrich_idempotent (m : MetaRec) (p : SourceRec) :
    enrich (enrich m p) p = enrich m p := by
  funext k
  rw [enrich_apply (enrich m p) p k]
  cases hp : p k with
  | none => rfl
  | some v =>
    rw [enrich_apply m p k, hp]
    by_cases hv : inEmptyList v = true
    · simp [hv]
    · have hv2 : inEmptyList v = false := by simpa using hv
      by_cases hc : inEmptyList (m k) = true
      · simp [hv2, hc]
      · have hc2 : inEmptyList (m k) = false := by simpa using hc
        simp [hv2, hc2]

/-- Invariant of the enrich_from_metadata loop: at every column the row is
either untouched, or it held an empty value and now holds the truthy
metadata value of a mapping entry for that column. -/
theorem enrich_fold_inv (md : MetaRec) (L : List (MetaKey × String)) :
    ∀ (l : List (MetaKey × String)) (row r : Row),
      (∀ e, e ∈ l → e ∈ L) →
      (∀ c, r c = row c ∨ ∃ cur k, row c = Option.some cur ∧ is_empty cur = true ∧
        (k, c) ∈ L ∧ truthy (md k) = true ∧ r c = Option.some (md k)) →
      ∀ c, (l.foldl (enrichStep md) r) c = row c ∨
        ∃ cur k, row c = Option.some cur ∧ is_empty cur = true ∧
          (k, c) ∈ L ∧ truthy (md k) = true ∧
          (l.foldl (enrichStep md) r) c = Option.some (md k) := by
  intro l
  induction l with
  | nil =>
    intro row r _ hinv c
    exact hinv c
  | cons e rest ih =>
    intro row r hmem hinv c
    simp only [List.foldl_cons]
    refine ih row (enrichStep md r e)
      (fun e2 he2 => hmem e2 (List.mem_cons_of_mem e he2)) ?_ c
    intro c2
    have heL : e ∈ L := hmem e (List.mem_cons_self e rest)
    unfold enrichStep
    cases hr : r e.2 with
    | none => exact hinv c2
    | some cur =>
      by_cases hcond : (is_empty cur && truthy (md e.1)) = true
      · obtain ⟨hemp1, htru1⟩ : is_empty cur = true ∧ truthy (md e.1) = true := by
          simpa using hcond
        simp only [hcond, if_true]
        by_cases hc2 : c2 = e.2
        · have hset : setCol r e.2 (md e.1) c2 = Option.some (md e.1) := by
            simp [setCol, hc2]
          have hrc2 : r c2 = Option.some cur := by rw [hc2]; exact hr
          have hmemL : (e.1, c2) ∈ L := by rw [hc2]; simpa using heL
          rcases hinv c2 with h1 | ⟨cur0, k0, hrow, hemp, _, _, _⟩
          · right
            exact ⟨cur, e.1, by rw [← h1]; exact hrc2, hemp1, hmemL, htru1, hset⟩
          · right
            exact ⟨cur0, e.1, hrow, hemp, hmemL, htru1, hset⟩
        · have hset : setCol r e.2 (md e.1) c2 = r c2 := by
            simp [setCol, hc2]
          rcases hinv c2 with h1 | ⟨cur0, k0, hrow, hemp, hmem0, htr, hrc⟩
          · left; rw [hset]; exact h1
          · right; exact ⟨cur0, k0, hrow, hemp, hmem0, htr, by rw [hset]; exact hrc⟩
      · have hcond2 : (is_empty cur && truthy (md e.1)) = false := by simpa using hcond
        simp only [hcond2, if_false]
        exact hinv c2

/-- C1 (amended): for the fetchers' dict-level enrich the claim holds as
stated - a field whose value is outside [None, "", "NaN"] is never changed,
and a field is filled only when it was inside that set and the incoming
value is outside it.  For the row-level enrich_from_metadata the source's
is_empty notion is wider (NA values and whitespace-only strings also count
as empty, so such fields can be overwritten) and the fill test is Python
truthiness of the metadata value (so the truthy string "NaN" can be
filled in); each changed column held an is_empty value and now holds the
truthy metadata value of its mapping entry. -/
theorem C1_fill_only_if_empty_amended :
    (∀ (cur : MetaRec) (new : SourceRec) (k : MetaKey),
      inEmptyList (cur k) = false → enrich cur new k = cur k) ∧
    (∀ (cur : MetaRec) (new : SourceRec) (k : MetaKey),
      enrich cur new k ≠ cur k →
      inEmptyList (cur k) = true ∧
        ∃ v, new k = Option.some v ∧ inEmptyList v = false ∧ enrich cur new k = v) ∧
    (∀ (row : Row) (pfx : String) (md : MetaRec) (c : String) (v : PyVal),
      row c = Option.some v → is_empty v = false →
      enrich_from_metadata row pfx (Option.some md) c = Option.some v) ∧
    (∀ (row : Row) (pfx : String) (md : MetaRec) (c : String),
      enrich_from_metadata row pfx (Option.some md) c = row c ∨
      ∃ cur k, row c = Option.some cur ∧ is_empty cur = true ∧
        (k, c) ∈ field_mapping pfx ∧ truthy (md k) = true ∧
        enrich_from_metadata row pfx (Option.some md) c = Option.some (md k)) := by
  have hmain : ∀ (row : Row) (pfx : String) (md : MetaRec) (c : String),
      enrich_from_metadata row pfx (Option.some md) c = row c ∨
      ∃ cur k, row c = Option.some cur ∧ is_empty cur = true ∧
        (k, c) ∈ field_mapping pfx ∧ truthy (md k) = true ∧
        enrich_from_metadata row pfx (Option.some md) c = Option.some (md k) := by
    intro row pfx md c
    exact enrich_fold_inv md (field_mapping pfx) (field_mapping pfx) row row
      (fun _ he => he) (fun _ => Or.inl rfl) c
  refine ⟨?_, ?_, ?_, hmain⟩
  · intro cur new k h
    rw [enrich_apply]
    cases new k with
    | none => rfl
    | some v => simp [h]
  · intro cur new k h
    rw [enrich_apply] at h ⊢
    cases hp : new k with
    | none => rw [hp] at h; exact absurd rfl h
    | some v =>
      rw [hp] at h
      by_cases hcond : (inEmptyList (cur k) && !inEmptyList v) = true
      · obtain ⟨h1, h2⟩ : inEmptyList (cur k) = true ∧ (!inEmptyList v) = true := by
          simpa [Bool.and_eq_true] using hcond
        exact ⟨h1, v, rfl, by simpa using h2, by simp [hcond]⟩
      · have hf : (inEmptyList (cur k) && !inEmptyList v) = false := by simpa using hcond
        simp only [hf] at h
        simp at h
  · intro row pfx md c v hv hemp
    rcases hmain row pfx md c with h1 | ⟨cur, k, hrow, hempty, _, _, _⟩
    · rw [h1, hv]
    · rw [hv] at hrow
      cases hrow
      rw [hemp] at hempty
      cases hempty

/-- Row and metadata for the C1 counterexample. -/
def rowC1 : Row :=
  fun c => if c = "original_year" then Option.some (PyVal.str " ") else Option.none

/-- Metadata for the C1 counterexample. -/
def mdC1 : MetaRec :=
  fun k => if k = MetaKey.year then PyVal.str "2020" else PyVal.none

/-- C1 counterexample: the row's original_year holds the one-space string
" ", which is not None, not "" and not "NaN", yet the merge of a provider
result overwrites it (the source's is_empty also treats whitespace-only
strings as empty). -/
theorem C1_counterexample :
    rowC1 "original_year" = Option.some (PyVal.str " ") ∧
    (PyVal.str " " ≠ PyVal.none ∧ PyVal.str " " ≠ PyVal.str "" ∧
      PyVal.str " " ≠ PyVal.str "NaN") ∧
    enrich_from_metadata rowC1 "original" (Option.some mdC1) "original_year" =
      Option.some (PyVal.str "2020") := by
  refine ⟨rfl, ⟨by decide, by decide, by decide⟩, by decide⟩

/-- Row for the C1 witness. -/
def rowC1w : Row :=
  fun c => if c = "original_title" then Option.some (PyVal.str "Known Title") else Option.none

/-- Metadata for the C1 witness. -/
def mdC1w : MetaRec := fun _ => PyVal.str "QQ"

/-- Witness for C1 (amended): a non-empty dict field survives a merge, and
a non-empty row column survives enrich_from_metadata. -/
theorem C1_fill_only_if_empty_amended_witness :
    enrich (fun _ => PyVal.str "A") (fun _ => Option.some (PyVal.str "B")) MetaKey.title =
      PyVal.str "A" ∧
    enrich_from_metadata rowC1w "original" (Option.some mdC1w) "original_title" =
      Option.some (PyVal.str "Known Title") :=
  ⟨C1_fill_only_if_empty_amended.1 (fun _ => PyVal.str "A")
      (fun _ => Option.some (PyVal.str "B")) MetaKey.title (by decide),
   C1_fill_only_if_empty_amended.2.2.1 rowC1w "original" mdC1w "original_title"
      (PyVal.str "Known Title") (by decide) (by decide)⟩

/-- C3: the completeness check after a successful merge causes immediate
return.  In the uniform chain of fetch_metadata_from_doi this holds at any
position (the accumulated record is universally quantified) whatever the
remaining providers would return; in particular in both engines a first
provider whose merge already completes the record leaves every other
provider unconsulted. -/
theorem C3_early_termination :
    (∀ (fields : List MetaKey) (meta : MetaRec) (pr : Provider) (p : SourceRec)
        (rest : List (Provider × Option SourceRec)),
      is_complete fields (enrich meta p) = true →
      waterfall fields meta ((pr, Option.some p) :: rest) = (enrich meta p, [pr], true)) ∧
    (∀ (s : String) (p : SourceRec) (o2 o3 o4 o5 o6 : Option SourceRec),
      pyStrip s ≠ "" →
      is_complete doiKeys (enrich emptyMeta p) = true →
      fetch_metadata_from_doi (PyVal.str s) (Option.some p) o2 o3 o4 o5 o6 =
        Option.some (enrich emptyMeta p, [Provider.openAlex])) ∧
    (∀ (s : String) (p : SourceRec) (q2 q3 q4 q5 : Option SourceRec),
      pyStrip s ≠ "" →
      is_complete titleKeys (enrich emptyMeta p) = true →
      fetch_metadata_from_title (PyVal.str s) (Option.some p) q2 q3 q4 q5 =
        Option.some (enrich emptyMeta p, [Provider.openAlex])) := by
  refine ⟨?_, ?_, ?_⟩
  · intro fields meta pr p rest hc
    simp [waterfall, hc]
  · intro s p o2 o3 o4 o5 o6 hs hc
    simp [fetch_metadata_from_doi, if_neg hs, waterfall, hc]
  · intro s p q2 q3 q4 q5 hs hc
    simp [fetch_metadata_from_title, if_neg hs, hc]

/-- The provider dict completing the record in one shot, for witnesses. -/
def srcComplete : SourceRec := fun _ => Option.some (PyVal.str "v")

/-- Witness for C3: with a first provider that alone completes the record,
both engines consult only that provider. -/
theorem C3_early_termination_witness :
    fetch_metadata_from_doi (PyVal.str "10.1/x") (Option.some srcComplete)
      Option.none Option.none Option.none Option.none Option.none =
      Option.some (enrich emptyMeta srcComplete, [Provider.openAlex]) ∧
    fetch_metadata_from_title (PyVal.str "Some Effect") (Option.some srcComplete)
      Option.none Option.none Option.none Option.none =
      Option.some (enrich emptyMeta srcComplete, [Provider.openAlex]) :=
  ⟨C3_early_termination.2.1 "10.1/x" srcComplete Option.none Option.none Option.none
      Option.none Option.none (by decide) (by decide),
   C3_early_termination.2.2 "Some Effect" srcComplete Option.none Option.none
      Option.none Option.none (by decide) (by decide)⟩

/-- C8: a failed provider (exception, non-success status, unusable body)
contributes nothing - the chain continues with the state unchanged - and
exhausting all providers without completeness still returns the
accumulated, possibly partial, record (the doi engine then applies its url
fallback; the all-failing title run consults the four reachable providers
and returns the empty record). -/
theorem C8_fault_absorption :
    (∀ (fields : List MetaKey) (meta : MetaRec) (pr : Provider)
        (rest : List (Provider × Option SourceRec)),
      waterfall fields meta ((pr, Option.none) :: rest) =
        ((waterfall fields meta rest).1, pr :: (waterfall fields meta rest).2.1,
          (waterfall fields meta rest).2.2)) ∧
    (∀ s : String, pyStrip s ≠ "" →
      fetch_metadata_from_doi (PyVal.str s) Option.none Option.none Option.none
        Option.none Option.none Option.none =
        Option.some (finalizeDoi (pyStrip s) emptyMeta, doiOrder)) ∧
    (∀ s : String, pyStrip s ≠ "" →
      fetch_metadata_from_title (PyVal.str s) Option.none Option.none Option.none
        Option.none Option.none =
        Option.some (emptyMeta,
          [Provider.openAlex, Provider.crossref, Provider.europePMC,
           Provider.semanticScholar])) := by
  refine ⟨?_, ?_, ?_⟩
  · intro fields meta pr rest
    simp [waterfall]
  · intro s hs
    simp [fetch_metadata_from_doi, if_neg hs, waterfall, doiOrder]
  · intro s hs
    simp [fetch_metadata_from_title, if_neg hs, afterOpenAlex, europePMCStage,
      postSearch, ssStage, finalizeTitle, emptyMeta, truthy]

/-- Witness for C8: both engines on a run where every provider fails. -/
theorem C8_fault_absorption_witness :
    fetch_metadata_from_doi (PyVal.str "10.1/x") Option.none Option.none Option.none
      Option.none Option.none Option.none =
      Option.some (finalizeDoi (pyStrip "10.1/x") emptyMeta, doiOrder) ∧
    fetch_metadata_from_title (PyVal.str "Some Effect") Option.none Option.none
      Option.none Option.none Option.none =
      Option.some (emptyMeta,
        [Provider.openAlex, Provider.crossref, Provider.europePMC,
         Provider.semanticScholar]) :=
  ⟨C8_fault_absorption.2.1 "10.1/x" (by decide),
   C8_fault_absorption.2.2 "Some Effect" (by decide)⟩

/-- Semantic Scholar is always the one provider its stage invokes. -/
theorem ssStage_trace (m : MetaRec) (o5 : Option SourceRec) :
    (ssStage m o5).2 = [Provider.semanticScholar] := by
  cases o5 <;> rfl

/-- Providers invoked from the DataCite stage, in order. -/
theorem dataCiteStage_trace (m : MetaRec) (o4 o5 : Option SourceRec) :
    List.Sublist (dataCiteStage m o4 o5).2
      [Provider.dataCite, Provider.semanticScholar] := by
  cases o4 with
  | none =>
    show List.Sublist (Provider.dataCite :: (ssStage m o5).2) _
    rw [ssStage_trace]
  | some p =>
    by_cases hc : is_complete titleKeys (enrich m p) = true
    · simp only [dataCiteStage, hc, if_true]
      exact List.Sublist.cons₂ _ (List.nil_sublist _)
    · have hf : is_complete titleKeys (enrich m p) = false := by simpa using hc
      simp only [dataCiteStage, hf, Bool.false_eq_true, if_false, ssStage_trace]
      exact List.Sublist.refl _

/-- Providers invoked after the search phase, in order. -/
theorem postSearch_trace (m : MetaRec) (d : PyVal) (o4 o5 : Option SourceRec) :
    List.Sublist (postSearch m d o4 o5).2
      [Provider.dataCite, Provider.semanticScholar] := by
  by_cases ht : truthy d = true
  · simp only [postSearch, ht, if_true]
    exact dataCiteStage_trace m o4 o5
  · have hf : truthy d = false := by simpa using ht
    simp only [postSearch, hf, Bool.false_eq_true, if_false, ssStage_trace]
    exact List.Sublist.cons _ (List.Sublist.refl _)

/-- Providers invoked from the Europe PMC stage, in order. -/
theorem europePMCStage_trace (m : MetaRec) (d : PyVal) (o3 o4 o5 : Option SourceRec) :
    List.Sublist (europePMCStage m d o3 o4 o5).2
      [Provider.europePMC, Provider.dataCite, Provider.semanticScholar] := by
  cases o3 with
  | none =>
    show List.Sublist (Provider.europePMC :: (postSearch m d o4 o5).2) _
    exact List.Sublist.cons₂ _ (postSearch_trace m d o4 o5)
  | some p =>
    by_cases hc : is_complete titleKeys (enrich m p) = true
    · simp only [europePMCStage, hc, if_true]
      exact List.Sublist.cons₂ _ (List.nil_sublist _)
    · have hf : is_complete titleKeys (enrich m p) = false := by simpa using hc
      simp only [europePMCStage, hf, Bool.false_eq_true, if_false]
      exact List.Sublist.cons₂ _ (postSearch_trace _ _ o4 o5)

/-- Providers invoked after the OpenAlex block, in order. -/
theorem afterOpenAlex_trace (m : MetaRec) (d : PyVal) (o2 o3 o4 o5 : Option SourceRec) :
    List.Sublist (afterOpenAlex m d o2 o3 o4 o5).2
      [Provider.crossref, Provider.europePMC, Provider.dataCite,
       Provider.semanticScholar] := by
  by_cases ht : truthy d = true
  · simp only [afterOpenAlex, ht, if_true]
    exact List.Sublist.cons _ (List.Sublist.cons _ (postSearch_trace m d o4 o5))
  · have hf : truthy d = false := by simpa using ht
    simp only [afterOpenAlex, hf, Bool.false_eq_true, if_false]
    cases o2 with
    | none =>
      exact List.Sublist.cons₂ _ (europePMCStage_trace m d o3 o4 o5)
    | some p =>
      by_cases hc : is_complete titleKeys (enrich m p) = true
      · simp only [hc, if_true]
        exact List.Sublist.cons₂ _ (List.nil_sublist _)
      · have hcf : is_complete titleKeys (enrich m p) = false := by simpa using hc
        simp only [hcf, Bool.false_eq_true, if_false]
        by_cases hd2 : truthy (match p MetaKey.doi with
          | Option.some v => v
          | Option.none => PyVal.none) = true
        · simp only [hd2, if_true]
          exact List.Sublist.cons₂ _
            (List.Sublist.cons _ (postSearch_trace _ _ o4 o5))
        · have hd2f : truthy (match p MetaKey.doi with
            | Option.some v => v
            | Option.none => PyVal.none) = false := by simpa using hd2
          simp only [hd2f, Bool.false_eq_true, if_false]
          exact List.Sublist.cons₂ _ (europePMCStage_trace _ _ o3 o4 o5)

/-- The chain of fetch_metadata_from_doi invokes providers strictly in list
order: the invoked list is always an initial segment of the configured
order. -/
theorem waterfall_trace_take (fields : List MetaKey) :
    ∀ (l : List (Provider × Option SourceRec)) (meta : MetaRec),
      ∃ n, (waterfall fields meta l).2.1 = (l.map Prod.fst).take n := by
  intro l
  induction l with
  | nil => intro meta; exact ⟨0, rfl⟩
  | cons e rest ih =>
    intro meta
    obtain ⟨pr, o⟩ := e
    cases o with
    | none =>
      obtain ⟨n, hn⟩ := ih meta
      refine ⟨n + 1, ?_⟩
      show pr :: (waterfall fields meta rest).2.1 = pr :: (rest.map Prod.fst).take n
      rw [hn]
    | some p =>
      by_cases hc : is_complete fields (enrich meta p) = true
      · refine ⟨1, ?_⟩
        simp [waterfall, hc]
      · have hf : is_complete fields (enrich meta p) = false := by simpa using hc
        obtain ⟨n, hn⟩ := ih (enrich meta p)
        refine ⟨n + 1, ?_⟩
        simp only [waterfall, hf, Bool.false_eq_true, if_false]
        show pr :: (waterfall fields (enrich meta p) rest).2.1 =
          pr :: (rest.map Prod.fst).take n
        rw [hn]

/-- A provider dict carrying only a DOI, for the gating scenarios. -/
def srcDoiOnly : SourceRec :=
  fun k => if k = MetaKey.doi then Option.some (PyVal.str "10.1/x") else Option.none

/-- C7 counterexample: identifier mode consults six sources, not four - a
run in which no provider completes the record invokes all of OpenAlex,
DataCite, Crossref, Unpaywall, Europe PMC and Semantic Scholar. -/
theorem C7_counterexample :
    (fetch_metadata_from_doi (PyVal.str "10.1/x") Option.none Option.none Option.none
      Option.none Option.none Option.none).map Prod.snd = Option.some doiOrder ∧
    doiOrder.length = 6 ∧ doiOrder.length ≠ 4 := by
  refine ⟨by decide, rfl, by decide⟩

/-- C7 (amended): providers are invoked strictly in a fixed priority order;
identifier mode has six sources (all consulted when nothing completes),
title mode five, where the invoked set is always an in-order subset of
(OpenAlex, Crossref, Europe PMC, DataCite, Semantic Scholar) starting at
OpenAlex: Crossref and Europe PMC run only while no identifier is known and
DataCite only once one is, as the two closed runs illustrate. -/
theorem C7_provider_order_amended :
    (∀ (fields : List MetaKey) (l : List (Provider × Option SourceRec)) (meta : MetaRec),
      ∃ n, (waterfall fields meta l).2.1 = (l.map Prod.fst).take n) ∧
    (doiOrder.length = 6 ∧ titleOrder.length = 5) ∧
    ((fetch_metadata_from_doi (PyVal.str "10.1/x") Option.none Option.none Option.none
        Option.none Option.none Option.none).map Prod.snd = Option.some doiOrder) ∧
    (∀ (s : String) (o1 o2 o3 o4 o5 : Option SourceRec), pyStrip s ≠ "" →
      ∃ (m : MetaRec) (tr : List Provider),
        fetch_metadata_from_title (PyVal.str s) o1 o2 o3 o4 o5 =
          Option.some (m, Provider.openAlex :: tr) ∧
        List.Sublist (Provider.openAlex :: tr) titleOrder) ∧
    ((fetch_metadata_from_title (PyVal.str "T") Option.none Option.none Option.none
        Option.none Option.none).map Prod.snd =
      Option.some [Provider.openAlex, Provider.crossref, Provider.europePMC,
        Provider.semanticScholar] ∧
     (fetch_metadata_from_title (PyVal.str "T") (Option.some srcDoiOnly) Option.none
        Option.none Option.none Option.none).map Prod.snd =
      Option.some [Provider.openAlex, Provider.dataCite,
        Provider.semanticScholar]) := by
  refine ⟨waterfall_trace_take, ⟨rfl, rfl⟩, by decide, ?_, by decide, by decide⟩
  intro s o1 o2 o3 o4 o5 hs
  simp only [fetch_metadata_from_title, if_neg hs]
  cases o1 with
  | none =>
    refine ⟨(afterOpenAlex emptyMeta (emptyMeta MetaKey.doi) o2 o3 o4 o5).1,
      (afterOpenAlex emptyMeta (emptyMeta MetaKey.doi) o2 o3 o4 o5).2, rfl, ?_⟩
    exact List.Sublist.cons₂ _ (afterOpenAlex_trace _ _ o2 o3 o4 o5)
  | some p =>
    by_cases hc : is_complete titleKeys (enrich emptyMeta p) = true
    · refine ⟨enrich emptyMeta p, [], ?_, ?_⟩
      · simp [hc]
      · exact List.Sublist.cons₂ _ (List.nil_sublist _)
    · have hf : is_complete titleKeys (enrich emptyMeta p) = false := by simpa using hc
      refine ⟨(afterOpenAlex (enrich emptyMeta p) (enrich emptyMeta p MetaKey.doi) o2 o3 o4 o5).1,
        (afterOpenAlex (enrich emptyMeta p) (enrich emptyMeta p MetaKey.doi) o2 o3 o4 o5).2,
        ?_, ?_⟩
      · simp [hf]
      · exact List.Sublist.cons₂ _ (afterOpenAlex_trace _ _ o2 o3 o4 o5)

/-- Witness for C7 (amended): a concrete title run consults an in-order
subset of the five title-mode sources starting at OpenAlex. -/
theorem C7_provider_order_amended_witness :
    ∃ (m : MetaRec) (tr : List Provider),
      fetch_metadata_from_title (PyVal.str "Some Effect") (Option.some srcDoiOnly)
        Option.none Option.none Option.none Option.none =
        Option.some (m, Provider.openAlex :: tr) ∧
      List.Sublist (Provider.openAlex :: tr) titleOrder :=
  C7_provider_order_amended.2.2.2.1 "Some Effect" (Option.some srcDoiOnly)
    Option.none Option.none Option.none Option.none (by decide)

/-- Modelled from the spec's words "normalizing trailing \".0\" float
artifacts": remove one trailing ".0" when present.  Defined only to compare
the claim's normalization with the source's replace-all behaviour. -/
def specYearNorm (s : String) : String :=
  if List.isSuffixOf ".0".data s.data then String.mk (s.data.take (s.data.length - 2))
  else s

/-- Row for the C4 counterexample. -/
def rowC4 : Row :=
  fun c => if c = "original_year" then Option.some (PyVal.str "2.00") else Option.none

/-- Metadata for the C4 counterexample. -/
def mdC4 : MetaRec :=
  fun k => if k = MetaKey.year then PyVal.str "20" else PyVal.none

/-- C4 counterexample: the source strips every ".0" occurrence, not only a
trailing one.  With existing year "2.00" and candidate year "20" the two
trailing-normalized strings differ (so the claim says reject), yet the
check accepts, because "2.00".replace(".0", "") == "20". -/
theorem C4_counterexample :
    rowC4 "original_year" = Option.some (PyVal.str "2.00") ∧
    mdC4 MetaKey.year = PyVal.str "20" ∧
    specYearNorm "2.00" ≠ specYearNorm "20" ∧
    sanity_check_metadata rowC4 "original" (Option.some mdC4) = true := by
  refine ⟨rfl, rfl, by decide, by decide⟩

/-- C4 (amended): with an existing non-empty year and a non-blank
stringified candidate year, the check accepts exactly when the two strings
agree after removing every ".0" occurrence (so "2020" vs the float 2020.0
accepts and "2020" vs "2019" rejects); it accepts unconditionally when the
year column is absent, empty, or the candidate's stringified year is blank;
and a missing (falsy) candidate record is rejected outright. -/
theorem C4_sanity_check_amended :
    (∀ (row : Row) (pfx : String), sanity_check_metadata row pfx Option.none = false) ∧
    (∀ (row : Row) (pfx : String) (md : MetaRec),
      row (pfx ++ "_year") = Option.none →
      sanity_check_metadata row pfx (Option.some md) = true) ∧
    (∀ (row : Row) (pfx : String) (md : MetaRec) (v : PyVal),
      row (pfx ++ "_year") = Option.some v → is_empty v = true →
      sanity_check_metadata row pfx (Option.some md) = true) ∧
    (∀ (row : Row) (pfx : String) (md : MetaRec) (v : PyVal),
      row (pfx ++ "_year") = Option.some v → is_empty v = false →
      pyStrip (pyStr (md MetaKey.year)) = "" →
      sanity_check_metadata row pfx (Option.some md) = true) ∧
    (∀ (row : Row) (pfx : String) (md : MetaRec) (v : PyVal),
      row (pfx ++ "_year") = Option.some v → is_empty v = false →
      pyStrip (pyStr (md MetaKey.year)) ≠ "" →
      (sanity_check_metadata row pfx (Option.some md) = true ↔
        pyReplaceStr (pyStrip (pyStr v)) ".0" "" =
          pyReplaceStr (pyStrip (pyStr (md MetaKey.year))) ".0" "")) := by
  refine ⟨?_, ?_, ?_, ?_, ?_⟩
  · intro row pfx
    rfl
  · intro row pfx md h
    simp [sanity_check_metadata, h]
  · intro row pfx md v h hemp
    simp [sanity_check_metadata, h, hemp]
  · intro row pfx md v h hemp hblank
    simp [sanity_check_metadata, h, hemp, hblank]
  · intro row pfx md v h hemp hblank
    simp only [sanity_check_metadata, h, hemp, Bool.false_eq_true, if_false,
      if_neg hblank]
    exact beq_iff_eq

/-- Row for the C4 witness. -/
def rowC4w : Row :=
  fun c => if c = "original_year" then Option.some (PyVal.str "2020") else Option.none

/-- Metadata for the C4 witness: candidate year is the float 2020.0. -/
def mdC4w : MetaRec :=
  fun k => if k = MetaKey.year then PyVal.float 2020 else PyVal.none

/-- Witness for C4 (amended): existing "2020" against candidate 2020.0 is
accepted. -/
theorem C4_sanity_check_amended_witness :
    sanity_check_metadata rowC4w "original" (Option.some mdC4w) = true :=
  (C4_sanity_check_amended.2.2.2.2 rowC4w "original" mdC4w (PyVal.str "2020")
    (by decide) (by decide) (by decide)).mpr (by decide)

/-- On string values the pandas comparison agrees with value equality. -/
theorem pandasEq_str_iff (a b : PyVal) (ha : isStrVal a = true) (hb : isStrVal b = true) :
    (pandasEq a b = true ↔ a = b) := by
  cases a <;> cases b <;> simp_all [pandasEq, isStrVal]

/-- C2 (amended): when the three key fields of the candidate row and of
every master row hold string values, the row is a duplicate exactly when
some master row equals it on the whole triple; a non-duplicate row is
appended and raises the count by one, a duplicate is dropped with the
master unchanged; the master is only ever extended, never edited.  (With a
missing NaN value in a key field the pandas comparison never matches, so
such rows are appended even when the triples are identical.) -/
theorem C2_dedup_amended :
    (∀ (row : Row) (master : List Row),
      strTriple row = true → (∀ m ∈ master, strTriple m = true) →
      (check_duplicate row master = true ↔ ∃ m ∈ master, tripleOf m = tripleOf row)) ∧
    (∀ (row : Row) (master : List Row),
      check_duplicate row master = false →
      ingest_dedup_append [row] master = (master ++ [row], 0) ∧
        (master ++ [row]).length = master.length + 1) ∧
    (∀ (row : Row) (master : List Row),
      check_duplicate row master = true →
      ingest_dedup_append [row] master = (master, 1)) ∧
    (∀ (processed master : List Row),
      (ingest_dedup_append processed master).1 =
        master ++ processed.filter (fun r => !check_duplicate r master)) := by
  refine ⟨?_, ?_, ?_, ?_⟩
  · intro row master hrow hm
    obtain ⟨g1, g2, g3⟩ : isStrVal (rowGet row "original_url") = true ∧
        isStrVal (rowGet row "replication_url") = true ∧
        isStrVal (rowGet row "description") = true := by
      simpa [strTriple, Bool.and_eq_true, and_assoc] using hrow
    have key : ∀ m ∈ master,
        ((pandasEq (rowGet m "original_url") (rowGet row "original_url") &&
          pandasEq (rowGet m "replication_url") (rowGet row "replication_url") &&
          pandasEq (rowGet m "description") (rowGet row "description")) = true ↔
          tripleOf m = tripleOf row) := by
      intro m hmem
      obtain ⟨h1, h2, h3⟩ : isStrVal (rowGet m "original_url") = true ∧
          isStrVal (rowGet m "replication_url") = true ∧
          isStrVal (rowGet m "description") = true := by
        simpa [strTriple, Bool.and_eq_true, and_assoc] using hm m hmem
      simp only [Bool.and_eq_true, pandasEq_str_iff _ _ h1 g1,
        pandasEq_str_iff _ _ h2 g2, pandasEq_str_iff _ _ h3 g3, tripleOf,
        Prod.mk.injEq]
      tauto
    cases master with
    | nil => simp [check_duplicate]
    | cons m0 ms =>
      simp only [check_duplicate, List.isEmpty_cons, Bool.false_eq_true, if_false,
        List.any_eq_true]
      constructor
      · rintro ⟨m, hmem, hf⟩
        exact ⟨m, hmem, (key m hmem).mp hf⟩
      · rintro ⟨m, hmem, ht⟩
        exact ⟨m, hmem, (key m hmem).mpr ht⟩
  · intro row master hch
    constructor
    · simp [ingest_dedup_append, hch]
    · simp
  · intro row master hch
    simp [ingest_dedup_append, hch]
  · intro processed master
    rfl

/-- Master row for the C2 counterexample: urls present, description NaN. -/
def masterRowC2 : Row := fun c =>
  if c = "original_url" then Option.some (PyVal.str "http://doi.org/10.1/a")
  else if c = "replication_url" then Option.some (PyVal.str "http://doi.org/10.1/b")
  else if c = "description" then Option.some PyVal.nan
  else Option.none

/-- Input row for the C2 counterexample, identical to the master row on
the whole triple. -/
def inputRowC2 : Row := fun c =>
  if c = "original_url" then Option.some (PyVal.str "http://doi.org/10.1/a")
  else if c = "replication_url" then Option.some (PyVal.str "http://doi.org/10.1/b")
  else if c = "description" then Option.some PyVal.nan
  else Option.none

/-- C2 counterexample: a row matching a master row exactly on the triple -
with a missing NaN description on both sides - is not dropped: the pandas
comparison never matches on NaN, so the row is appended and the count
grows. -/
theorem C2_counterexample :
    tripleOf inputRowC2 = tripleOf masterRowC2 ∧
    check_duplicate inputRowC2 [masterRowC2] = false ∧
    ingest_dedup_append [inputRowC2] [masterRowC2] =
      ([masterRowC2, inputRowC2], 0) := by
  have hch : check_duplicate inputRowC2 [masterRowC2] = false := by decide
  exact ⟨rfl, hch, by simp [ingest_dedup_append, hch]⟩

/-- Row for the C2 witness. -/
def rowC2w : Row := fun c =>
  if c = "original_url" then Option.some (PyVal.str "u1")
  else if c = "replication_url" then Option.some (PyVal.str "u2")
  else if c = "description" then Option.some (PyVal.str "d")
  else Option.none

/-- Witness for C2 (amended): an all-string row against the empty master is
no duplicate and appending it raises the count by one. -/
theorem C2_dedup_amended_witness :
    (check_duplicate rowC2w [] = true ↔ ∃ m ∈ ([] : List Row), tripleOf m = tripleOf rowC2w) ∧
    (ingest_dedup_append [rowC2w] [] = ([] ++ [rowC2w], 0) ∧
      (([] : List Row) ++ [rowC2w]).length = ([] : List Row).length + 1) :=
  ⟨C2_dedup_amended.1 rowC2w [] (by decide) (by intro m hm; cases hm),
   C2_dedup_amended.2.1 rowC2w [] (by decide)⟩

/-- check_duplicate depends on the candidate row only through its key
triple. -/
theorem check_duplicate_congr (r r2 : Row) (master : List Row)
    (h : tripleOf r2 = tripleOf r) :
    check_duplicate r2 master = check_duplicate r master := by
  have h1 : rowGet r2 "original_url" = rowGet r "original_url" :=
    congrArg Prod.fst h
  have h2 : rowGet r2 "replication_url" = rowGet r "replication_url" :=
    congrArg (fun t => t.2.1) h
  have h3 : rowGet r2 "description" = rowGet r "description" :=
    congrArg (fun t => t.2.2) h
  simp only [check_duplicate, h1, h2, h3]

/-- C10: deduplication is checked only against the pre-existing master:
two batch rows identical on the key triple, neither a duplicate of the
master, are both appended, leaving the master with an internal duplicate
pair after one run. -/
theorem C10_batch_duplicates (r r2 : Row) (master : List Row)
    (htriple : tripleOf r2 = tripleOf r)
    (hch : check_duplicate r master = false) :
    ingest_dedup_append [r, r2] master = (master ++ [r, r2], 0) ∧
    (master ++ [r, r2]).length = master.length + 2 := by
  have hch2 : check_duplicate r2 master = false := by
    rw [check_duplicate_congr r r2 master htriple]
    exact hch
  constructor
  · simp [ingest_dedup_append, hch, hch2]
  · simp

/-- Batch row for the C10 witness. -/
def rowC10 : Row := fun c =>
  if c = "description" then Option.some (PyVal.str "same study") else Option.none

/-- Second, triple-identical batch row for the C10 witness. -/
def rowC10b : Row := fun c =>
  if c = "description" then Option.some (PyVal.str "same study") else Option.none

/-- Witness for C10: a batch with two triple-identical rows against the
empty master appends both. -/
theorem C10_batch_duplicates_witness :
    ingest_dedup_append [rowC10, rowC10b] [] = ([] ++ [rowC10, rowC10b], 0) ∧
    (([] : List Row) ++ [rowC10, rowC10b]).length = ([] : List Row).length + 2 :=
  C10_batch_duplicates rowC10 rowC10b [] rfl (by decide)
